import Mathlib

/-!
Verification of the goidarxiv paper-notification bot.

Strings from the Python sources are modelled as `List Char`; the stateful
handlers are modelled as pure functions of the data they inspect.  Network
calls are modelled by passing the provider's successive responses as an
explicit argument.
-/

set_option maxHeartbeats 1000000
set_option linter.unusedVariables false
set_option linter.unnecessarySeqFocus false

/-- Python `s.split(ab)` for a two-character separator `[a, b]`,
scanning left to right for the leftmost occurrence.
Used for `message.split("\n\n")` (helpers.py:43) and
`authors.split(', ')` (medarxiv_api.py:71). -/
def splitOnPair (a b : Char) : List Char → List (List Char)
  | [] => [[]]
  | [c] => [[c]]
  | c :: d :: rest =>
    if c = a ∧ d = b then [] :: splitOnPair a b rest
    else
      match splitOnPair a b (d :: rest) with
      | [] => [[c]]
      | p :: ps => (c :: p) :: ps

/-- Python `sep.join(parts)` for the same two-character separator. -/
def joinPair (a b : Char) : List (List Char) → List Char
  | [] => []
  | [p] => p
  | p :: ps => p ++ a :: b :: joinPair a b ps

/-- The text contributed by the remaining paragraphs: a leading `"\n\n"`
separator before each of them. -/
def restNN : List (List Char) → List Char
  | [] => []
  | p :: ps => '\n' :: '\n' :: (p ++ restNN ps)

/-- The backward scan of helpers.py:55-57: starting from `max_length`,
decrement until the character just before the cut position is a space,
bottoming out at 0. -/
def safeLength (p : List Char) : Nat → Nat
  | 0 => 0
  | n + 1 => if p[n]? = some ' ' then n + 1 else safeLength p n

/-- The paragraph-accumulation loop of `chunk_html_message`
(helpers.py:45-75): the three pieces of state are the remaining
paragraphs, the emitted chunks, and the running chunk. -/
def chunkCore (maxLen : Nat) : List (List Char) → List (List Char) → List Char → List (List Char)
  | [], chunks, current =>
    if current = [] then chunks else chunks ++ [current]
  | p :: ps, chunks, current =>
    if current.length + p.length + 2 > maxLen then
      if current = [] then
        if p.length > maxLen then
          if safeLength p maxLen > 0 then
            chunkCore maxLen ps (chunks ++ [p.take (safeLength p maxLen)]) (p.drop (safeLength p maxLen))
          else
            chunkCore maxLen ps (chunks ++ [p.take maxLen]) (p.drop maxLen)
        else
          chunkCore maxLen ps chunks p
      else
        chunkCore maxLen ps (chunks ++ [current]) p
    else
      if current = [] then
        chunkCore maxLen ps chunks p
      else
        chunkCore maxLen ps chunks (current ++ '\n' :: '\n' :: p)

/-- `chunk_html_message` (helpers.py:26-77, identical copy at
telegram_bot.py:44-95): return the message whole when it fits, otherwise
split it into paragraphs on `"\n\n"` and run the accumulation loop. -/
def chunk_html_message (message : List Char) (maxLen : Nat) : List (List Char) :=
  if message.length ≤ maxLen then [message]
  else chunkCore maxLen (splitOnPair '\n' '\n' message) [] []

/-- All ways of re-joining a chunk sequence, choosing at every chunk
boundary either direct concatenation (a cut inside a paragraph) or the
reinstated `"\n\n"` paragraph separator. -/
def rejoinAll : List (List Char) → List (List Char)
  | [] => [[]]
  | [c] => [c]
  | c :: d :: cs =>
    (rejoinAll (d :: cs)).map (fun r => c ++ r) ++
      (rejoinAll (d :: cs)).map (fun r => c ++ '\n' :: '\n' :: r)

/-! ## Identifier transforms (helpers.py:13-24, telegram_bot.py:21-31) -/

/-- `paper_id_without_dot`: when the identifier contains a dot, Python
`paper_id.replace(".", "")` removes every dot; otherwise the identifier
is returned unchanged. -/
def paper_id_without_dot (paper_id : List Char) : List Char :=
  if '.' ∈ paper_id then paper_id.filter (fun c => c != '.') else paper_id

/-- `paper_id_with_dot`: when the identifier contains a dot it is
returned unchanged; otherwise a dot is inserted after the first four
characters (`paper_id[:4] + "." + paper_id[4:]`). -/
def paper_id_with_dot (paper_id : List Char) : List Char :=
  if '.' ∈ paper_id then paper_id
  else paper_id.take 4 ++ '.' :: paper_id.drop 4

/-! ## The `/abstractXXXX` handler guard (telegram_bot.py:386-398) -/

/-- Python whitespace characters recognised by `str.strip()`. -/
def isPySpace (c : Char) : Bool :=
  c = ' ' ∨ c = '\t' ∨ c = '\n' ∨ c = '\r' ∨ c = Char.ofNat 11 ∨ c = Char.ofNat 12

/-- Python `s.strip()`: drop leading and trailing whitespace. -/
def pyStrip (l : List Char) : List Char :=
  ((l.dropWhile isPySpace).reverse.dropWhile isPySpace).reverse

/-- The externally visible decision taken by `abstract_no_space`:
either reply with the missing-identifier prompt, or proceed to the
provider lookup with the computed identifier. -/
inductive AbstractAction where
  | promptInvalid
  | lookup (id : List Char)
deriving DecidableEq

/-- telegram_bot.py:390-398: the identifier is the command text after
the 9-character `/abstract` head, stripped, passed through
`paper_id_with_dot`; only a falsy (empty) result triggers the prompt,
otherwise the handler proceeds to the lookup. -/
def abstract_no_space_decision (command_text : List Char) : AbstractAction :=
  if paper_id_with_dot (pyStrip (command_text.drop 9)) = [] then
    AbstractAction.promptInvalid
  else
    AbstractAction.lookup (paper_id_with_dot (pyStrip (command_text.drop 9)))

/-! ## The paper record (the dict built by the fetchers and consumed by
the handlers; `format_papers` reads the same data through attribute
access: `entry_id` is the `id` field and each author object is reduced
to its display name). -/

structure Paper where
  title : List Char
  abstract : List Char
  link : List Char
  published : Int
  authors : List (List Char)
  id : List Char
  categories : List (List Char)
deriving DecidableEq

/-! ## Message rendering (helpers.py:1-10, 80-96; telegram_bot.py:268-283) -/

/-- Python `text.replace(c, r)` for a single-character needle. -/
def pyReplace1 (l : List Char) (c : Char) (r : List Char) : List Char :=
  l.flatMap (fun x => if x = c then r else [x])

/-- `escape_html` (helpers.py:1-10): empty text maps to the empty
string; otherwise `&`, `<` and `>` are replaced in sequence. -/
def escape_html (text : List Char) : List Char :=
  if text = [] then []
  else pyReplace1 (pyReplace1 (pyReplace1 text '&' (("&amp;").toList)) '<' (("&lt;").toList)) '>'
    (("&gt;").toList)

/-- Python `s.split(c)` for a one-character separator; used for
`paper_id.split('/')`. -/
def splitOnChar (c : Char) : List Char → List (List Char)
  | [] => [[]]
  | x :: xs =>
    if x = c then [] :: splitOnChar c xs
    else
      match splitOnChar c xs with
      | [] => [[x]]
      | p :: ps => (x :: p) :: ps

/-- `paper.id.split('/')[-1]` — the last path segment of the entry id. -/
def lastSegment (l : List Char) : List Char :=
  (splitOnChar '/' l).getLastD []

/-- The author line shared by both renderers: join the first three
author names with `", "`, add `" et al."` when more than three exist,
then escape. -/
def authorsLine (authors : List (List Char)) : List Char :=
  escape_html
    (if authors.length > 3 then
      List.intercalate ((", ").toList) (authors.take 3) ++ (" et al.").toList
    else
      List.intercalate ((", ").toList) (authors.take 3))

/-- One list item of `today_command` / `send_daily_papers`
(telegram_bot.py:272-283, 481-492), with label `i`. -/
def todayItem (i : Nat) (paper : Paper) : List Char :=
  (Nat.repr i).toList ++ (". <b>").toList ++ escape_html paper.title ++ ("</b>\n").toList ++
    ("   Authors: ").toList ++ authorsLine paper.authors ++ ("\n").toList ++
    ("   Use /abstract").toList ++ paper_id_without_dot (lastSegment paper.id) ++
    (" to view details\n\n").toList

/-- The `for i, paper in enumerate(papers, 1)` accumulation of
telegram_bot.py:272-283: item labels start at the given counter and
increase by one per paper. -/
def todayLoop : List Paper → Nat → List Char
  | [], _ => []
  | p :: ps, i => todayItem i p ++ todayLoop ps (i + 1)

/-- The full per-topic message of `today_command`
(telegram_bot.py:270-283): header followed by the enumerated items,
with the counter starting at 1. -/
def todayMessage (topic : List Char) (papers : List Paper) : List Char :=
  ("📚 <b>").toList ++ topic ++ (" Papers Today</b> 📚\n\n").toList ++ todayLoop papers 1

/-- The item list of `todayMessage`, one entry per paper, paired with
its 1-based position. -/
def todayItems (papers : List Paper) : List (List Char) :=
  ((List.range' 1 papers.length).zip papers).map (fun ip => todayItem ip.1 ip.2)

/-- One list item of `format_papers` (helpers.py:91-95), with label `i`. -/
def formatItem (i : Nat) (paper : Paper) : List Char :=
  (Nat.repr i).toList ++ (". <b>").toList ++ escape_html paper.title ++ ("</b>\n").toList ++
    ("   Authors: ").toList ++ authorsLine paper.authors ++ ("\n").toList ++
    ("   /abstract").toList ++ paper_id_without_dot (lastSegment paper.id) ++ ("\n\n").toList

/-- The `for i in range(len(papers))` accumulation of helpers.py:83-95:
item labels start at the given counter (0 at the call site). -/
def formatLoop : List Paper → Nat → List Char
  | [], _ => []
  | p :: ps, i => formatItem i p ++ formatLoop ps (i + 1)

/-- `format_papers` (helpers.py:80-96): header followed by the items,
with the counter starting at 0 (`range(len(papers))`). -/
def format_papers (papers : List Paper) : List Char :=
  ("📚 <b>Papers Today</b> 📚\n\n").toList ++ formatLoop papers 0

/-! ## Grouping and deduplication (telegram_bot.py:246-257, 456-467) -/

/-- The two dictionaries built by `today_command` / `send_daily_papers`:
`all_papers` maps paper id to the stored paper, `by_topic` maps a
tracked category to its list of papers.  Python dicts preserve
insertion order, so both are modelled as association lists. -/
structure GroupState where
  all_papers : List (List Char × Paper)
  by_topic : List (List Char × List Paper)
deriving DecidableEq

/-- telegram_bot.py:254-257: ensure the category has an entry
(`papers_by_topic[category] = []` when missing) and append the paper to
it. -/
def addToTopic (bt : List (List Char × List Paper)) (cat : List Char) (paper : Paper) :
    List (List Char × List Paper) :=
  if bt.any (fun e => e.1 == cat) then
    bt.map (fun e => if e.1 == cat then (e.1, e.2 ++ [paper]) else e)
  else
    bt ++ [(cat, [paper])]

/-- telegram_bot.py:252-257: the `for category in paper['categories']`
loop — the paper is added to the group of each of its categories that
is tracked in `config['topics']`. -/
def addTrackedCategories (topics : List (List Char)) (bt : List (List Char × List Paper))
    (cats : List (List Char)) (paper : Paper) : List (List Char × List Paper) :=
  cats.foldl (fun b cat => if cat ∈ topics then addToTopic b cat paper else b) bt

/-- telegram_bot.py:247-257: one iteration of the grouping loop — skip
papers whose id is already stored, otherwise store the paper and add it
to the groups of its tracked categories. -/
def groupStep (topics : List (List Char)) (st : GroupState) (paper : Paper) : GroupState :=
  if st.all_papers.any (fun e => e.1 == paper.id) then st
  else
    { all_papers := st.all_papers ++ [(paper.id, paper)]
      by_topic := addTrackedCategories topics st.by_topic paper.categories paper }

/-- Membership of a paper in the group stored for a topic. -/
def inTopicGroup (bt : List (List Char × List Paper)) (t : List Char) (p : Paper) : Prop :=
  ∃ l, (t, l) ∈ bt ∧ p ∈ l

/-- The whole grouping pass over the fetched results. -/
def groupPapers (topics : List (List Char)) (results : List Paper) : GroupState :=
  results.foldl (groupStep topics) ⟨[], []⟩

/-- The paper stored in `all_papers` under a given id, if any. -/
def findEntry (i : List Char) (l : List (List Char × Paper)) : Option Paper :=
  (l.find? (fun e => e.1 == i)).map (fun e => e.2)

/-! ## medRxiv adapter (medarxiv_api.py:6-92) -/

/-- The fields of one record of a medRxiv API page that
`fetch_medarxiv_papers` reads (medarxiv_api.py:64-74); `authors` is the
raw comma-separated string the API delivers, `category` the raw
category string. -/
structure MedrxivRaw where
  title : List Char
  abstract : List Char
  pdf_url : List Char
  doi : List Char
  date : Int
  authors : List Char
  category : List Char
deriving DecidableEq

/-- One network round trip of the pagination loop: either a page of
records, or a `requests` exception. -/
inductive PageResp where
  | ok (collection : List MedrxivRaw)
  | err
deriving DecidableEq

/-- medarxiv_api.py:66-74: the `paper_info` dict built for one raw
record.  `link` is `pdf_url or` the constructed content URL, `authors`
is split on `", "`, `categories` wraps the single category string. -/
def medPaperInfo (server : List Char) (r : MedrxivRaw) : Paper :=
  { title := r.title
    abstract := r.abstract
    link :=
      if r.pdf_url = [] then
        ("https://www.").toList ++ server ++ (".org/content/").toList ++ r.doi ++
          (".full.pdf").toList
      else r.pdf_url
    published := r.date
    authors := splitOnPair ',' ' ' r.authors
    id := r.doi
    categories := [r.category] }

/-- medarxiv_api.py:64-79: the inner `for paper in collection` loop,
which appends converted records and breaks once `max_results` is
reached. -/
def processCollection (server : List Char) (maxResults : Nat) :
    List MedrxivRaw → List Paper → List Paper
  | [], acc => acc
  | r :: rs, acc =>
    if maxResults ≤ (acc ++ [medPaperInfo server r]).length then acc ++ [medPaperInfo server r]
    else processCollection server maxResults rs (acc ++ [medPaperInfo server r])

/-- medarxiv_api.py:47-90: the `while len(all_results) < max_results`
pagination loop over the provider's successive responses.  An exception
(`PageResp.err`) breaks the loop and keeps the accumulated records; an
empty collection breaks; a collection shorter than the 100-record page
size breaks after processing it. -/
def medLoop (server : List Char) (maxResults : Nat) : List PageResp → List Paper → List Paper
  | [], acc => acc
  | page :: rest, acc =>
    if acc.length < maxResults then
      match page with
      | PageResp.err => acc
      | PageResp.ok collection =>
        if collection = [] then acc
        else
          if collection.length < 100 then processCollection server maxResults collection acc
          else medLoop server maxResults rest (processCollection server maxResults collection acc)
    else acc

/-- `fetch_medarxiv_papers` (medarxiv_api.py:6-92).  `topics`,
`start_date` and `end_date` only shape the request URL (the provider is
expected to filter server-side); no client-side check of `published`
against the range exists, so they are never consulted again.  The
provider's successive page responses are the `pages` argument, and the
final result is truncated to `max_results`
(`all_results[:max_results]`). -/
def fetch_medarxiv_papers (topics : List (List Char)) (startDate endDate : Int)
    (maxResults : Nat) (server : List Char) (pages : List PageResp) : List Paper :=
  (medLoop server maxResults pages []).take maxResults

/-! ## arXiv adapter date filter (arxiv_api.py:40-47) -/

/-- The client-side date filter of `fetch_arxiv_papers`: the provider's
results (`client.results(search)`, modelled as the input list) are kept
exactly when `start_date <= published <= end_date`. -/
def fetch_arxiv_papers (providerResults : List Paper) (startDate endDate : Int) : List Paper :=
  providerResults.filter (fun paper =>
    decide (startDate ≤ paper.published) && decide (paper.published ≤ endDate))

/-! ## Authorization (telegram_bot.py:33-42, 302-332) -/

/-- A Python value held in `config['authorized_users']`: the JSON list
may hold numbers or strings. -/
inductive PyVal where
  | pyInt (n : Int)
  | pyStr (s : List Char)
deriving DecidableEq

/-- Python `==` across the two value kinds: an int never equals a str. -/
def pyEq : PyVal → PyVal → Bool
  | PyVal.pyInt a, PyVal.pyInt b => a == b
  | PyVal.pyStr a, PyVal.pyStr b => a == b
  | _, _ => false

/-- Python `v in lst` membership, via `==` on the elements. -/
def pyIn (v : PyVal) (l : List PyVal) : Bool :=
  l.any (pyEq v)

/-- Whether the value is a string. -/
def PyVal.isStr : PyVal → Bool
  | PyVal.pyStr _ => true
  | PyVal.pyInt _ => false

/-- telegram_bot.py:328: `config['authorized_users'].append(str(new_user_id))`
— the authorize command stores the decimal string of the id. -/
def authorize_user_append (authorized : List PyVal) (newUserId : Int) : List PyVal :=
  authorized ++ [PyVal.pyStr ((toString newUserId).toList)]

/-- telegram_bot.py:36-37: the decorator's test
`user_id in config['authorized_users']`, with `user_id` the integer
`update.effective_user.id`. -/
def authorized_only_check (userId : Int) (authorized : List PyVal) : Bool :=
  pyIn (PyVal.pyInt userId) authorized

/-! ## Concrete inputs for the scenario witnesses -/

/-- The `"cs.CV"` topic. -/
def csCV : List Char := ("cs.CV").toList

/-- The `"cs.AI"` topic. -/
def csAI : List Char := ("cs.AI").toList

/-- The duplicated two-category paper of the dedup/grouping scenario. -/
def paperS : Paper :=
  { title := ("T").toList
    abstract := []
    link := []
    published := 0
    authors := [("A").toList]
    id := ("2401.99999").toList
    categories := [csCV, csAI] }

/-- A raw medRxiv record dated outside the requested range. -/
def medRawLate : MedrxivRaw :=
  { title := ("t").toList
    abstract := []
    pdf_url := ("u").toList
    doi := ("10.1101/x").toList
    date := 99
    authors := ("A").toList
    category := csCV }

/-- A one-author paper used to exercise the renderers. -/
def paperNum : Paper :=
  { title := ("T").toList
    abstract := []
    link := []
    published := 0
    authors := [("A").toList]
    id := ("123").toList
    categories := [csCV] }

/-! # Theorems -/

/-! ## Split/join infrastructure -/

theorem splitOnPair_ne_nil (a b : Char) (l : List Char) : splitOnPair a b l ≠ [] := by
  induction l using splitOnPair.induct a b <;> simp_all [splitOnPair] <;> split <;> simp_all

theorem joinPair_cons_cons (a b c : Char) (p : List Char) (ps : List (List Char)) :
    joinPair a b ((c :: p) :: ps) = c :: joinPair a b (p :: ps) := by
  cases ps <;> simp [joinPair]

theorem joinPair_splitOnPair (a b : Char) (l : List Char) :
    joinPair a b (splitOnPair a b l) = l := by
  induction l using splitOnPair.induct a b with
  | case1 => simp [splitOnPair, joinPair]
  | case2 c => simp [splitOnPair, joinPair]
  | case3 c d rest h ih =>
    obtain ⟨rfl, rfl⟩ := h
    rw [splitOnPair, if_pos ⟨rfl, rfl⟩]
    cases hS : splitOnPair c d rest with
    | nil => exact absurd hS (splitOnPair_ne_nil c d rest)
    | cons s ss =>
      rw [hS] at ih
      simp [joinPair, ih]
  | case4 c d rest h hS ih => exact absurd hS (splitOnPair_ne_nil a b (d :: rest))
  | case5 c d rest h p ps hS ih =>
    rw [splitOnPair, if_neg h, hS, joinPair_cons_cons]
    rw [hS] at ih
    rw [ih]

theorem joinPair_cons_restNN (p : List Char) (ps : List (List Char)) :
    joinPair '\n' '\n' (p :: ps) = p ++ restNN ps := by
  induction ps generalizing p with
  | nil => simp [joinPair, restNN]
  | cons q qs ih => simp [joinPair, restNN, ih q]

theorem splitOnPair_eq_single (a b : Char) (l : List Char) (h : ∀ c ∈ l, c ≠ a) :
    splitOnPair a b l = [l] := by
  induction l using splitOnPair.induct a b with
  | case1 => rfl
  | case2 c => rfl
  | case3 c d rest hcd ih => exact absurd hcd.1 (h c (by simp))
  | case4 c d rest hcd hS ih => exact absurd hS (splitOnPair_ne_nil a b (d :: rest))
  | case5 c d rest hcd p ps hS ih =>
    rw [splitOnPair, if_neg hcd, hS]
    have h2 : splitOnPair a b (d :: rest) = [d :: rest] :=
      ih (fun x hx => h x (List.mem_cons_of_mem c hx))
    rw [hS] at h2
    injection h2 with h3 h4
    rw [h3, h4]

/-! ## Re-joining chunk sequences -/

theorem rejoinAll_cons₂ (c d : List Char) (cs : List (List Char)) :
    rejoinAll (c :: d :: cs) =
      (rejoinAll (d :: cs)).map (fun r => c ++ r) ++
        (rejoinAll (d :: cs)).map (fun r => c ++ '\n' :: '\n' :: r) := rfl

theorem rejoinAll_snoc (p : List Char) : ∀ (l : List (List Char)) (t : List Char), l ≠ [] →
    t ∈ rejoinAll l →
    t ++ p ∈ rejoinAll (l ++ [p]) ∧ t ++ '\n' :: '\n' :: p ∈ rejoinAll (l ++ [p]) := by
  intro l
  induction l with
  | nil => simp
  | cons c cs ih =>
    intro t _ ht
    cases cs with
    | nil =>
      simp only [rejoinAll, List.mem_singleton] at ht
      subst ht
      constructor <;> simp [rejoinAll]
    | cons d ds =>
      rw [rejoinAll_cons₂] at ht
      simp only [List.mem_append, List.mem_map] at ht
      have hR : ∀ r : List Char, r ∈ rejoinAll (d :: ds) →
          r ++ p ∈ rejoinAll (d :: ds ++ [p]) ∧
            r ++ '\n' :: '\n' :: p ∈ rejoinAll (d :: ds ++ [p]) := by
        intro r hr
        simpa using ih r (by simp) hr
      rcases ht with ⟨r, hr, rfl⟩ | ⟨r, hr, rfl⟩ <;>
        rw [List.cons_append, List.cons_append, rejoinAll_cons₂] <;>
        constructor <;>
        simp only [List.mem_append, List.mem_map]
      · exact Or.inl ⟨r ++ p, (hR r hr).1, by simp⟩
      · exact Or.inl ⟨r ++ '\n' :: '\n' :: p, (hR r hr).2, by simp⟩
      · exact Or.inr ⟨r ++ p, (hR r hr).1, by simp⟩
      · exact Or.inr ⟨r ++ '\n' :: '\n' :: p, (hR r hr).2, by simp⟩

theorem rejoinAll_extend (s : List Char) : ∀ (l : List (List Char)) (c t : List Char),
    t ∈ rejoinAll (l ++ [c]) → t ++ s ∈ rejoinAll (l ++ [c ++ s]) := by
  intro l
  induction l with
  | nil =>
    intro c t ht
    simp only [List.nil_append, rejoinAll, List.mem_singleton] at ht ⊢
    subst ht; rfl
  | cons a l ih =>
    intro c t ht
    cases l with
    | nil =>
      simp only [List.cons_append, List.nil_append, rejoinAll, List.mem_singleton,
        List.mem_append, List.mem_map] at ht ⊢
      rcases ht with ⟨r, hr, rfl⟩ | ⟨r, hr, rfl⟩
      · subst hr
        exact Or.inl ⟨r ++ s, rfl, by simp⟩
      · subst hr
        exact Or.inr ⟨r ++ s, rfl, by simp⟩
    | cons b l2 =>
      rw [List.cons_append, List.cons_append, rejoinAll_cons₂] at ht
      rw [List.cons_append, List.cons_append, rejoinAll_cons₂]
      simp only [List.mem_append, List.mem_map] at ht ⊢
      rcases ht with ⟨r, hr, rfl⟩ | ⟨r, hr, rfl⟩
      · exact Or.inl ⟨r ++ s, by simpa using ih c r (by simpa using hr), by simp⟩
      · exact Or.inr ⟨r ++ s, by simpa using ih c r (by simpa using hr), by simp⟩

/-! ## The chunking loop -/

theorem safeLength_le (p : List Char) : ∀ n, safeLength p n ≤ n := by
  intro n
  induction n with
  | zero => simp [safeLength]
  | succ m ih =>
    rw [safeLength]
    split
    · exact Nat.le_refl _
    · exact Nat.le_trans ih (Nat.le_succ m)

theorem safeLength_eq_zero (p : List Char) : ∀ n, (∀ i, i < n → p[i]? ≠ some ' ') →
    safeLength p n = 0 := by
  intro n
  induction n with
  | zero => intro _; rfl
  | succ m ih =>
    intro h
    rw [safeLength, if_neg (h m (Nat.lt_succ_self m))]
    exact ih (fun i hi => h i (Nat.lt_succ_of_lt hi))

theorem chunkCore_rejoin (maxLen : Nat) : ∀ (ps chunks : List (List Char)) (current t : List Char),
    (∀ p ∈ ps, p ≠ []) → current ≠ [] →
    t ∈ rejoinAll (chunks ++ [current]) →
    t ++ restNN ps ∈ rejoinAll (chunkCore maxLen ps chunks current) := by
  intro ps
  induction ps with
  | nil =>
    intro chunks current t _ hc ht
    rw [chunkCore, if_neg hc]
    simpa [restNN] using ht
  | cons p ps ih =>
    intro chunks current t hne hc ht
    rw [chunkCore]
    by_cases hcond : current.length + p.length + 2 > maxLen
    · rw [if_pos hcond, if_neg hc]
      have hp : p ≠ [] := hne p (by simp)
      have h2 := (rejoinAll_snoc p (chunks ++ [current]) t (by simp) ht).2
      have h3 := ih (chunks ++ [current]) p (t ++ '\n' :: '\n' :: p)
        (fun q hq => hne q (by simp [hq])) hp (by simpa using h2)
      simpa [restNN, List.append_assoc] using h3
    · rw [if_neg hcond, if_neg hc]
      have h2 := rejoinAll_extend ('\n' :: '\n' :: p) chunks current t ht
      have h3 := ih chunks (current ++ '\n' :: '\n' :: p) (t ++ '\n' :: '\n' :: p)
        (fun q hq => hne q (by simp [hq])) (by simp [hc]) (by simpa [List.append_assoc] using h2)
      simpa [restNN, List.append_assoc] using h3

/-! ## Claim C1 -/

/-- C1: the claimed length bound `len(chunk) ≤ max_length` fails on the
code: for the ten-character message `"aaaaaaaaaa"` and `max_length = 4`
the hard cut emits a first chunk of length 4, but the 6-character
remainder never re-enters the splitting logic and is flushed as a chunk
of length 6 > 4. -/
theorem C1_chunk_exceeds_max_length :
    (chunk_html_message (List.replicate 10 'a') 4).map List.length = [4, 6] := by decide

/-! ## Claim C4 -/

/-- C4 counterexample: for the input `"\n\naaaa"` (an empty leading
paragraph) and `max_length = 4`, the chunker returns `["aaaa"]`, and no
choice of boundary separators re-joins the chunks into the original
input — the leading `"\n\n"` is lost. -/
theorem C4_counterexample :
    (("\n\naaaa").toList) ∉ rejoinAll (chunk_html_message ((("\n\naaaa")).toList) 4) := by decide

/-- C4 (amended): for every input whose double-newline split contains no
empty paragraph, and every maximum length, some choice of per-boundary
separators (direct concatenation at an intra-paragraph cut, `"\n\n"` at
a paragraph boundary) re-joins the chunks produced by
`chunk_html_message` into exactly the original input. -/
theorem C4_rejoin_recovers_input (msg : List Char) (maxLen : Nat)
    (h : [] ∉ splitOnPair '\n' '\n' msg) :
    msg ∈ rejoinAll (chunk_html_message msg maxLen) := by
  unfold chunk_html_message
  by_cases hfit : msg.length ≤ maxLen
  · rw [if_pos hfit]
    simp [rejoinAll]
  · rw [if_neg hfit]
    obtain ⟨p, ps, hsplit⟩ : ∃ p ps, splitOnPair '\n' '\n' msg = p :: ps := by
      cases hS : splitOnPair '\n' '\n' msg with
      | nil => exact absurd hS (splitOnPair_ne_nil '\n' '\n' msg)
      | cons p ps => exact ⟨p, ps, rfl⟩
    rw [hsplit]
    have hmsg : msg = p ++ restNN ps := by
      have hj := joinPair_splitOnPair '\n' '\n' msg
      rw [hsplit, joinPair_cons_restNN] at hj
      exact hj.symm
    have hpne : p ≠ [] := by
      intro h0
      exact h (by rw [hsplit, h0]; simp)
    have hps : ∀ q ∈ ps, q ≠ [] := by
      intro q hq h0
      exact h (by rw [hsplit]; subst h0; simp [hq])
    rw [chunkCore]
    simp only [List.length_nil, Nat.zero_add, if_true]
    have hmem1 : p ∈ rejoinAll ([] ++ [p]) := by simp [rejoinAll]
    have hdropK : ∀ k, k ≤ maxLen → maxLen < p.length → List.drop k p ≠ [] := by
      intro k hk hlen h0
      rw [List.drop_eq_nil_iff] at h0
      omega
    by_cases h1 : p.length + 2 > maxLen
    · rw [if_pos h1]
      by_cases h2 : p.length > maxLen
      · rw [if_pos h2]
        have hmemcut : ∀ k : Nat, p ∈ rejoinAll (([] ++ [List.take k p]) ++ [List.drop k p]) := by
          intro k
          simp only [List.nil_append, rejoinAll, List.mem_append, List.mem_map, List.mem_singleton]
          exact Or.inl ⟨List.drop k p, rfl, List.take_append_drop k p⟩
        by_cases h3 : safeLength p maxLen > 0
        · rw [if_pos h3]
          have h4 := chunkCore_rejoin maxLen ps ([] ++ [List.take (safeLength p maxLen) p])
            (List.drop (safeLength p maxLen) p) p hps
            (hdropK _ (safeLength_le p maxLen) h2) (hmemcut _)
          rw [hmsg]
          simpa using h4
        · rw [if_neg h3]
          have h4 := chunkCore_rejoin maxLen ps ([] ++ [List.take maxLen p])
            (List.drop maxLen p) p hps (hdropK _ (Nat.le_refl _) h2) (hmemcut _)
          rw [hmsg]
          simpa using h4
      · rw [if_neg h2]
        have h4 := chunkCore_rejoin maxLen ps [] p p hps hpne hmem1
        rw [hmsg]
        simpa using h4
    · rw [if_neg h1]
      have h4 := chunkCore_rejoin maxLen ps [] p p hps hpne hmem1
      rw [hmsg]
      simpa using h4

/-- C4 witness: the amended theorem applied to the concrete message
`"ab\n\ncd\n\nef"` with `max_length = 5`. -/
theorem C4_witness :
    ([] ∉ splitOnPair '\n' '\n' (("ab\n\ncd\n\nef").toList)) ∧
      (("ab\n\ncd\n\nef").toList) ∈
        rejoinAll (chunk_html_message ((("ab\n\ncd\n\nef")).toList) 5) :=
  ⟨by decide, C4_rejoin_recovers_input (("ab\n\ncd\n\nef").toList) 5 (by decide)⟩

/-! ## Claim C5 -/

/-- C5: a single paragraph (no `"\n\n"` inside) of length 4060 with no
space among its first 4000 characters, chunked with `max_length = 4000`,
yields exactly two chunks: the first 4000 characters and the remaining
60. -/
theorem C5_hard_cut_scenario (p : List Char) (hlen : p.length = 4060)
    (hsp : ∀ i, i < 4000 → p[i]? ≠ some ' ')
    (hpar : splitOnPair '\n' '\n' p = [p]) :
    chunk_html_message p 4000 = [p.take 4000, p.drop 4000] ∧
      (p.take 4000).length = 4000 ∧ (p.drop 4000).length = 60 := by
  have hnot : ¬ p.length ≤ 4000 := by omega
  have hsafe : safeLength p 4000 = 0 := safeLength_eq_zero p 4000 hsp
  refine ⟨?_, by simp [hlen], by simp [hlen]⟩
  unfold chunk_html_message
  rw [if_neg hnot, hpar, chunkCore]
  simp only [List.length_nil, Nat.zero_add, if_true]
  rw [if_pos (by omega), if_pos (by omega), hsafe]
  simp only [gt_iff_lt, Nat.lt_irrefl, if_false]
  rw [chunkCore, if_neg (by rw [List.drop_eq_nil_iff]; omega)]
  simp

/-- C5 witness: the scenario theorem applied to 4060 repetitions of
`'a'`. -/
theorem C5_witness :
    chunk_html_message (List.replicate 4060 'a') 4000 =
      [List.replicate 4000 'a', List.replicate 60 'a'] := by
  have hsp : ∀ i, i < 4000 → (List.replicate 4060 'a')[i]? ≠ some ' ' := by
    intro i hi
    rw [List.getElem?_replicate, if_pos (by omega)]
    decide
  have h := C5_hard_cut_scenario (List.replicate 4060 'a') (by rw [List.length_replicate]) hsp
    (splitOnPair_eq_single '\n' '\n' (List.replicate 4060 'a')
      (fun c hc => by rw [List.eq_of_mem_replicate hc]; decide))
  rw [h.1, List.take_replicate, List.drop_replicate]
  rfl

/-! ## Claim C8 -/

theorem isDigit_ne_dot (c : Char) (h : c.isDigit = true) : c ≠ '.' := by
  intro hc
  subst hc
  exact absurd h (by decide)

/-- C8: round trip of the separator transforms — for a 9-or-10-digit
compact arXiv id, `paper_id_without_dot (paper_id_with_dot x) = x`, and
for a dotted id with exactly one dot after four digits,
`paper_id_with_dot (paper_id_without_dot x) = x`. -/
theorem C8_separator_round_trip :
    (∀ x : List Char, (∀ c ∈ x, c.isDigit = true) → (x.length = 9 ∨ x.length = 10) →
      paper_id_without_dot (paper_id_with_dot x) = x) ∧
    (∀ a b : List Char, a.length = 4 → (∀ c ∈ a, c.isDigit = true) →
      (∀ c ∈ b, c.isDigit = true) →
      paper_id_with_dot (paper_id_without_dot (a ++ '.' :: b)) = a ++ '.' :: b) := by
  constructor
  · intro x hdig hlen
    have hdot : '.' ∉ x := fun hm => isDigit_ne_dot _ (hdig _ hm) rfl
    rw [paper_id_with_dot, if_neg hdot, paper_id_without_dot,
      if_pos (by simp : '.' ∈ x.take 4 ++ '.' :: x.drop 4)]
    rw [List.filter_append, List.filter_cons]
    have h1 : (x.take 4).filter (fun c => c != '.') = x.take 4 :=
      List.filter_eq_self.mpr (fun c hc => by
        simpa [bne_iff_ne] using isDigit_ne_dot c (hdig c (List.mem_of_mem_take hc)))
    have h2 : (x.drop 4).filter (fun c => c != '.') = x.drop 4 :=
      List.filter_eq_self.mpr (fun c hc => by
        simpa [bne_iff_ne] using isDigit_ne_dot c (hdig c (List.mem_of_mem_drop hc)))
    simp only [bne_self_eq_false, Bool.false_eq_true, if_false, h1, h2,
      List.take_append_drop]
  · intro a b hlen hda hdb
    have hfa : a.filter (fun c => c != '.') = a :=
      List.filter_eq_self.mpr (fun c hc => by
        simpa [bne_iff_ne] using isDigit_ne_dot c (hda c hc))
    have hfb : b.filter (fun c => c != '.') = b :=
      List.filter_eq_self.mpr (fun c hc => by
        simpa [bne_iff_ne] using isDigit_ne_dot c (hdb c hc))
    rw [paper_id_without_dot, if_pos (by simp : '.' ∈ a ++ '.' :: b),
      List.filter_append, List.filter_cons]
    simp only [bne_self_eq_false, Bool.false_eq_true, if_false, hfa, hfb]
    have hdot2 : '.' ∉ a ++ b := by
      intro hm
      rcases List.mem_append.1 hm with hm | hm
      · exact isDigit_ne_dot _ (hda _ hm) rfl
      · exact isDigit_ne_dot _ (hdb _ hm) rfl
    rw [paper_id_with_dot, if_neg hdot2, ← hlen, List.take_left, List.drop_left]

/-- C8 witness: the round trip evaluated on `"240112345"` and
`"2401.12345"`. -/
theorem C8_witness :
    paper_id_without_dot (paper_id_with_dot (("240112345").toList)) = ("240112345").toList ∧
      paper_id_with_dot (paper_id_without_dot (("2401").toList ++ '.' :: ("12345").toList)) =
        ("2401").toList ++ '.' :: ("12345").toList :=
  ⟨C8_separator_round_trip.1 (("240112345").toList) (by decide) (by decide),
    C8_separator_round_trip.2 (("2401").toList) (("12345").toList) (by decide) (by decide)
      (by decide)⟩

/-! ## Claim C9 -/

theorem paper_id_with_dot_ne_nil (l : List Char) : paper_id_with_dot l ≠ [] := by
  rw [paper_id_with_dot]
  split
  · next h =>
    intro h0
    rw [h0] at h
    simp at h
  · simp

/-- C9: the claimed empty-identifier guard of `abstract_no_space` never
fires.  On the all-whitespace tail `"/abstract   "` the handler
proceeds to a provider lookup with the identifier `"."` (because
`paper_id_with_dot ""` = `"."` is truthy), and in general no command
text can reach the missing-identifier prompt. -/
theorem C9_empty_id_guard_unreachable :
    abstract_no_space_decision (("/abstract   ").toList) = AbstractAction.lookup (['.']) ∧
      ∀ commandText : List Char,
        abstract_no_space_decision commandText ≠ AbstractAction.promptInvalid := by
  constructor
  · decide
  · intro ct
    rw [abstract_no_space_decision, if_neg (paper_id_with_dot_ne_nil _)]
    simp

/-! ## Claim C10 -/

/-- C10: `authorize_user` appends the decimal string `str(new_user_id)`
while `authorized_only` tests the integer id for membership; Python
`==` never equates an int with a str, so the appended entry never makes
the guard's test succeed, and when the list holds only strings the
newly authorized integer id is still rejected. -/
theorem C10_authorize_guard_mismatch (n : Int) (authorized : List PyVal) :
    authorized_only_check n (authorize_user_append authorized n) =
        authorized_only_check n authorized ∧
      ((∀ v ∈ authorized, v.isStr = true) →
        authorized_only_check n (authorize_user_append authorized n) = false) := by
  have hone : ∀ s : List Char, pyEq (PyVal.pyInt n) (PyVal.pyStr s) = false := fun s => rfl
  constructor
  · rw [authorized_only_check, pyIn, authorize_user_append, List.any_append]
    simp [List.any_cons, hone, authorized_only_check, pyIn]
  · intro h
    rw [authorized_only_check, pyIn, authorize_user_append, List.any_append]
    have h1 : authorized.any (pyEq (PyVal.pyInt n)) = false := by
      rw [List.any_eq_false]
      intro v hv
      cases v with
      | pyStr s => simp [pyEq]
      | pyInt m =>
        have h2 := h _ hv
        simp [PyVal.isStr] at h2
    rw [h1]
    simp [List.any_cons, hone]

/-- C10 witness: a guard check for user 42 after `/authorize 42`
appended `"42"` to a config whose list holds the string `"123456"`. -/
theorem C10_witness :
    authorized_only_check 42 (authorize_user_append [PyVal.pyStr (("123456").toList)] 42) =
      false :=
  (C10_authorize_guard_mismatch 42 [PyVal.pyStr (("123456").toList)]).2 (by decide)

/-! ## Claim C6 -/

theorem items_getElem (f : Nat × Paper → List Char) :
    ∀ (ps : List Paper) (s j : Nat) (p : Paper), ps[j]? = some p →
      (((List.range' s ps.length).zip ps).map f)[j]? = some (f (s + j, p)) := by
  intro ps
  induction ps with
  | nil => intro s j p h; simp at h
  | cons q qs ih =>
    intro s j p h
    cases j with
    | zero =>
      simp only [List.getElem?_cons_zero, Option.some_inj] at h
      subst h
      simp [List.range'_succ, List.zip_cons_cons]
    | succ m =>
      simp only [List.getElem?_cons_succ] at h
      rw [List.length_cons, List.range'_succ, List.zip_cons_cons, List.map_cons,
        List.getElem?_cons_succ, ih (s + 1) m p h]
      have harith : s + 1 + m = s + (m + 1) := by omega
      rw [harith]

theorem todayLoop_eq_flatten : ∀ (papers : List Paper) (s : Nat),
    todayLoop papers s =
      (((List.range' s papers.length).zip papers).map (fun ip => todayItem ip.1 ip.2)).flatten := by
  intro papers
  induction papers with
  | nil => intro s; simp [todayLoop]
  | cons p ps ih =>
    intro s
    rw [todayLoop, List.length_cons, List.range'_succ, List.zip_cons_cons, List.map_cons,
      List.flatten_cons, ih (s + 1)]

/-- C6 counterexample: the claim fails on `format_papers`
(helpers.py:80-96), whose loop `for i in range(len(papers))` labels the
first item `0`, not `1`. -/
theorem C6_counterexample :
    format_papers [paperNum] =
        ((("📚 <b>Papers Today</b> 📚\n\n0. <b>T</b>\n   Authors: A\n   /abstract123\n\n"))).toList ∧
      ¬ ((("📚 <b>Papers Today</b> 📚\n\n1. ")).toList <+: format_papers [paperNum]) := by
  constructor <;> decide

/-- C6 (amended): the claim holds for the inline renderer of
`today_command` / `send_daily_papers`, whose `enumerate(papers, 1)`
loop labels the j-th paper (0-based `j`) with `j + 1`, each item
starting with that decimal label followed by `". "`; `format_papers`
instead numbers from 0. -/
theorem C6_numbered_from_one (topic : List Char) (papers : List Paper) :
    todayMessage topic papers =
        ("📚 <b>").toList ++ topic ++ (" Papers Today</b> 📚\n\n").toList ++
          (todayItems papers).flatten ∧
      (∀ j p, papers[j]? = some p → (todayItems papers)[j]? = some (todayItem (j + 1) p)) ∧
      (∀ i p, ∃ r, todayItem i p = (Nat.repr i).toList ++ (". ").toList ++ r) := by
  refine ⟨?_, ?_, ?_⟩
  · rw [todayMessage, todayItems, todayLoop_eq_flatten]
  · intro j p h
    rw [todayItems, items_getElem (fun ip => todayItem ip.1 ip.2) papers 1 j p h,
      Nat.add_comm 1 j]
  · intro i p
    refine ⟨("<b>").toList ++ escape_html p.title ++ ("</b>\n").toList ++
      ("   Authors: ").toList ++ authorsLine p.authors ++ ("\n").toList ++
      ("   Use /abstract").toList ++ paper_id_without_dot (lastSegment p.id) ++
      (" to view details\n\n").toList, ?_⟩
    have hsplit2 : ((". <b>")).toList = ((". ")).toList ++ (("<b>")).toList := rfl
    rw [todayItem, hsplit2]
    simp [List.append_assoc]

/-- C6 witness: the amended theorem applied to a one-paper list — the
first item is the label-1 item and starts with `"1. "`. -/
theorem C6_witness :
    (todayItems [paperNum])[0]? = some (todayItem 1 paperNum) ∧
      ∃ r, todayItem 1 paperNum = (Nat.repr 1).toList ++ (". ").toList ++ r :=
  ⟨(C6_numbered_from_one csCV [paperNum]).2.1 0 paperNum (by decide),
    (C6_numbered_from_one csCV [paperNum]).2.2 1 paperNum⟩

/-! ## Claim C7 -/

theorem medLoop_err_break (server : List Char) (maxResults : Nat) :
    ∀ (pages rest : List PageResp) (acc : List Paper),
      medLoop server maxResults (pages ++ PageResp.err :: rest) acc =
        medLoop server maxResults pages acc := by
  intro pages
  induction pages with
  | nil =>
    intro rest acc
    rw [List.nil_append]
    simp only [medLoop]
    split <;> rfl
  | cons page ps ih =>
    intro rest acc
    rw [List.cons_append]
    cases page with
    | err => simp only [medLoop]
    | ok coll =>
      simp only [medLoop]
      by_cases hlen : acc.length < maxResults
      · rw [if_pos hlen, if_pos hlen]
        by_cases hc : coll = []
        · rw [if_pos hc, if_pos hc]
        · rw [if_neg hc, if_neg hc]
          by_cases hlt : coll.length < 100
          · rw [if_pos hlt, if_pos hlt]
          · rw [if_neg hlt, if_neg hlt, ih]
      · rw [if_neg hlen, if_neg hlen]

/-- C7: a page-level request failure during `fetch_medarxiv_papers`
pagination does not raise and does not discard progress — the result is
exactly what the same call would return with the provider exhausted
right before the failing page (the records of the preceding pages), and
it is truncated to at most `max_results`. -/
theorem C7_partial_progress_on_failure (topics : List (List Char)) (startDate endDate : Int)
    (maxResults : Nat) (server : List Char) (pages rest : List PageResp) :
    fetch_medarxiv_papers topics startDate endDate maxResults server
        (pages ++ PageResp.err :: rest) =
      fetch_medarxiv_papers topics startDate endDate maxResults server pages ∧
    (fetch_medarxiv_papers topics startDate endDate maxResults server
        (pages ++ PageResp.err :: rest)).length ≤ maxResults := by
  constructor
  · rw [fetch_medarxiv_papers, fetch_medarxiv_papers, medLoop_err_break]
  · rw [fetch_medarxiv_papers]
    simp [List.length_take]

/-! ## Claim C2 -/

/-- C2 counterexample: the medRxiv fetch path applies no client-side
date filter.  A provider page holding a record dated 99 — outside the
requested range [0, 10] — flows through `fetch_medarxiv_papers` and the
grouping step into the result set. -/
theorem C2_counterexample :
    (fetch_medarxiv_papers [csCV] 0 10 100 (("medrxiv").toList)
        [PageResp.ok [medRawLate]]).map Paper.published = [99] ∧
      ∃ e ∈ (groupPapers [csCV]
          (fetch_medarxiv_papers [csCV] 0 10 100 (("medrxiv").toList)
            [PageResp.ok [medRawLate]])).all_papers,
        ¬((0 : Int) ≤ e.2.published ∧ e.2.published ≤ 10) := by
  constructor <;> decide

/-- C2 (amended): only the arXiv adapter re-applies the date filter
client-side — every paper returned by `fetch_arxiv_papers` satisfies
`start ≤ published ≤ end` regardless of what the provider returned.
The medRxiv adapter and the grouping step apply no client-side filter
(see the counterexample), so the invariant holds for the arXiv path
only. -/
theorem C2_arxiv_client_side_filter (providerResults : List Paper) (startDate endDate : Int) :
    ∀ p ∈ fetch_arxiv_papers providerResults startDate endDate,
      startDate ≤ p.published ∧ p.published ≤ endDate := by
  intro p hp
  rw [fetch_arxiv_papers] at hp
  have h2 := (List.mem_filter.1 hp).2
  simp only [Bool.and_eq_true, decide_eq_true_eq] at h2
  exact h2

/-- C2 witness: the filter theorem applied to a concrete in-range
provider record. -/
theorem C2_witness : (0 : Int) ≤ paperNum.published ∧ paperNum.published ≤ 10 :=
  C2_arxiv_client_side_filter [paperNum] 0 10 paperNum (by decide)

/-! ## Claim C3 -/

theorem addToTopic_mono (bt : List (List Char × List Paper)) (c : List Char) (x : Paper)
    (t : List Char) (q : Paper) (h : inTopicGroup bt t q) :
    inTopicGroup (addToTopic bt c x) t q := by
  obtain ⟨l, hl, hq⟩ := h
  rw [addToTopic]
  split
  · by_cases htc : (t == c) = true
    · exact ⟨l ++ [x], List.mem_map.2 ⟨(t, l), hl, by simp [htc]⟩, List.mem_append_left _ hq⟩
    · refine ⟨l, List.mem_map.2 ⟨(t, l), hl, ?_⟩, hq⟩
      simp [htc]
  · exact ⟨l, List.mem_append_left _ hl, hq⟩

theorem addToTopic_self (bt : List (List Char × List Paper)) (c : List Char) (x : Paper) :
    inTopicGroup (addToTopic bt c x) c x := by
  rw [addToTopic]
  split
  · next hany =>
    obtain ⟨e, he, hbe⟩ := List.any_eq_true.1 hany
    have hec : e.1 = c := by simpa using hbe
    refine ⟨e.2 ++ [x], List.mem_map.2 ⟨e, he, ?_⟩, by simp⟩
    simp [hbe, hec]
  · exact ⟨[x], List.mem_append_right _ (by simp), by simp⟩

theorem addTracked_nil (topics : List (List Char)) (bt : List (List Char × List Paper))
    (x : Paper) : addTrackedCategories topics bt [] x = bt := rfl

theorem addTracked_cons (topics : List (List Char)) (bt : List (List Char × List Paper))
    (c : List Char) (cs : List (List Char)) (x : Paper) :
    addTrackedCategories topics bt (c :: cs) x =
      addTrackedCategories topics (if c ∈ topics then addToTopic bt c x else bt) cs x := rfl

theorem addTracked_mono (topics : List (List Char)) (x : Paper) :
    ∀ (cats : List (List Char)) (bt : List (List Char × List Paper)) (t : List Char) (q : Paper),
      inTopicGroup bt t q → inTopicGroup (addTrackedCategories topics bt cats x) t q := by
  intro cats
  induction cats with
  | nil => intro bt t q h; exact h
  | cons c cs ih =>
    intro bt t q h
    rw [addTracked_cons]
    apply ih
    split
    · exact addToTopic_mono bt c x t q h
    · exact h

theorem addTracked_self (topics : List (List Char)) (x : Paper) :
    ∀ (cats : List (List Char)) (bt : List (List Char × List Paper)) (c : List Char),
      c ∈ cats → c ∈ topics → inTopicGroup (addTrackedCategories topics bt cats x) c x := by
  intro cats
  induction cats with
  | nil => simp
  | cons d ds ih =>
    intro bt c hc htop
    rw [addTracked_cons]
    rcases List.mem_cons.1 hc with rfl | hc2
    · rw [if_pos htop]
      exact addTracked_mono topics x ds _ c x (addToTopic_self bt c x)
    · exact ih _ c hc2 htop

theorem groupStep_skip (topics : List (List Char)) (st : GroupState) (x : Paper)
    (h : st.all_papers.any (fun e => e.1 == x.id) = true) : groupStep topics st x = st := by
  rw [groupStep, if_pos h]

theorem groupStep_add (topics : List (List Char)) (st : GroupState) (x : Paper)
    (h : ¬ st.all_papers.any (fun e => e.1 == x.id) = true) :
    groupStep topics st x =
      ⟨st.all_papers ++ [(x.id, x)],
        addTrackedCategories topics st.by_topic x.categories x⟩ := by
  rw [groupStep, if_neg h]

theorem groupFold_invariant (topics : List (List Char)) :
    ∀ (results : List Paper) (st : GroupState),
      (∀ i p, (i, p) ∈ st.all_papers → ∀ t ∈ topics, t ∈ p.categories →
        inTopicGroup st.by_topic t p) →
      ∀ i p, (i, p) ∈ (results.foldl (groupStep topics) st).all_papers → ∀ t ∈ topics,
        t ∈ p.categories → inTopicGroup (results.foldl (groupStep topics) st).by_topic t p := by
  intro results
  induction results with
  | nil => intro st h; simpa using h
  | cons x rs ih =>
    intro st h
    rw [List.foldl_cons]
    apply ih
    intro i p hip t ht hcat
    by_cases hany : st.all_papers.any (fun e => e.1 == x.id) = true
    · rw [groupStep_skip topics st x hany] at hip ⊢
      exact h i p hip t ht hcat
    · rw [groupStep_add topics st x hany] at hip ⊢
      simp only [] at hip ⊢
      rcases List.mem_append.1 hip with hmem | hmem
      · exact addTracked_mono topics x x.categories st.by_topic t p (h i p hmem t ht hcat)
      · simp only [List.mem_singleton, Prod.mk.injEq] at hmem
        obtain ⟨rfl, rfl⟩ := hmem
        exact addTracked_self topics p p.categories st.by_topic t hcat ht

theorem option_map_or (f : (List Char × Paper) → Paper) (x y : Option (List Char × Paper)) :
    (x.or y).map f = (x.map f).or (y.map f) := by
  cases x <;> rfl

theorem findEntry_append (i : List Char) (l1 l2 : List (List Char × Paper)) :
    findEntry i (l1 ++ l2) = (findEntry i l1).or (findEntry i l2) := by
  rw [findEntry, findEntry, findEntry, List.find?_append, option_map_or]

theorem findEntry_isSome_of_any (i : List Char) (l : List (List Char × Paper))
    (h : l.any (fun e => e.1 == i) = true) : ∃ x, findEntry i l = some x := by
  rw [findEntry]
  obtain ⟨e, he, hbe⟩ := List.any_eq_true.1 h
  cases hf : l.find? (fun e => e.1 == i) with
  | none =>
    have h2 := List.find?_eq_none.1 hf e he
    exact absurd hbe h2
  | some v => exact ⟨v.2, rfl⟩

theorem find?_id_cons (x : Paper) (rs : List Paper) (i : List Char) :
    List.find? (fun q => q.id == i) (x :: rs) =
      if (x.id == i) = true then some x else List.find? (fun q => q.id == i) rs := by
  by_cases hxi : (x.id == i) = true
  · rw [if_pos hxi]
    exact List.find?_cons_of_pos rs hxi
  · rw [if_neg hxi]
    exact List.find?_cons_of_neg rs (by simpa using hxi)

theorem find?_key_cons (e : List Char × Paper) (rs : List (List Char × Paper)) (i : List Char) :
    List.find? (fun e2 => e2.1 == i) (e :: rs) =
      if (e.1 == i) = true then some e else List.find? (fun e2 => e2.1 == i) rs := by
  by_cases hei : (e.1 == i) = true
  · rw [if_pos hei]
    exact List.find?_cons_of_pos rs hei
  · rw [if_neg hei]
    exact List.find?_cons_of_neg rs (by simpa using hei)

theorem findEntry_fold (topics : List (List Char)) :
    ∀ (results : List Paper) (st : GroupState) (i : List Char),
      findEntry i (results.foldl (groupStep topics) st).all_papers =
        (findEntry i st.all_papers).or (results.find? (fun q => q.id == i)) := by
  intro results
  induction results with
  | nil =>
    intro st i
    simp only [List.foldl_nil, List.find?_nil]
    cases findEntry i st.all_papers <;> rfl
  | cons x rs ih =>
    intro st i
    rw [List.foldl_cons, ih, find?_id_cons]
    by_cases hany : st.all_papers.any (fun e => e.1 == x.id) = true
    · rw [groupStep_skip topics st x hany]
      by_cases hxi : (x.id == i) = true
      · have hxi2 : x.id = i := by simpa using hxi
        obtain ⟨v, hv⟩ := findEntry_isSome_of_any i st.all_papers (by rwa [hxi2] at hany)
        rw [hv, if_pos hxi]
        rfl
      · rw [if_neg hxi]
    · rw [groupStep_add topics st x hany]
      simp only []
      rw [findEntry_append]
      have hsingle : findEntry i [(x.id, x)] =
          if (x.id == i) = true then some x else none := by
        rw [findEntry, find?_key_cons, List.find?_nil]
        by_cases hxi : (x.id == i) = true
        · rw [if_pos hxi, if_pos hxi]
          rfl
        · rw [if_neg hxi, if_neg hxi]
          rfl
      rw [hsingle, Option.or_assoc]
      by_cases hxi : (x.id == i) = true
      · rw [if_pos hxi, if_pos hxi]
        rfl
      · rw [if_neg hxi, if_neg hxi]
        rfl

theorem nodup_keys_fold (topics : List (List Char)) :
    ∀ (results : List Paper) (st : GroupState),
      (st.all_papers.map Prod.fst).Nodup →
      ((results.foldl (groupStep topics) st).all_papers.map Prod.fst).Nodup := by
  intro results
  induction results with
  | nil => intro st h; exact h
  | cons x rs ih =>
    intro st h
    rw [List.foldl_cons]
    apply ih
    by_cases hany : st.all_papers.any (fun e => e.1 == x.id) = true
    · rw [groupStep_skip topics st x hany]
      exact h
    · rw [groupStep_add topics st x hany]
      simp only [List.map_append, List.map_cons, List.map_nil]
      rw [List.nodup_append]
      refine ⟨h, List.nodup_singleton _, ?_⟩
      intro a ha hb
      simp only [List.mem_singleton] at hb
      subst hb
      apply hany
      rw [List.any_eq_true]
      obtain ⟨e, he, hfst⟩ := List.mem_map.1 ha
      exact ⟨e, he, by simp [hfst]⟩

/-- C3: in the grouping pass, each paper id is stored at most once in
the full set (`all_papers` has no duplicate keys), the paper stored for
an id is the first fetched paper bearing that id, and every stored
paper is a member of the group of every requested topic that appears in
its categories. -/
theorem C3_dedup_and_grouping (topics : List (List Char)) (results : List Paper) :
    ((groupPapers topics results).all_papers.map Prod.fst).Nodup ∧
      (∀ i : List Char, findEntry i (groupPapers topics results).all_papers =
        results.find? (fun q => q.id == i)) ∧
      (∀ i p, (i, p) ∈ (groupPapers topics results).all_papers → ∀ t ∈ topics,
        t ∈ p.categories → inTopicGroup (groupPapers topics results).by_topic t p) := by
  refine ⟨?_, ?_, ?_⟩
  · exact nodup_keys_fold topics results ⟨[], []⟩ (by simp)
  · intro i
    rw [groupPapers, findEntry_fold topics results ⟨[], []⟩ i]
    rfl
  · exact groupFold_invariant topics results ⟨[], []⟩ (by simp)

/-- C3 witness: the scenario — topics `["cs.CV", "cs.AI"]` and a fetch
returning the same two-category paper twice — has exactly one stored
entry for the id, and the paper sits in both topic groups. -/
theorem C3_witness :
    ((groupPapers [csCV, csAI] [paperS, paperS]).all_papers.map Prod.fst).Nodup ∧
      findEntry paperS.id (groupPapers [csCV, csAI] [paperS, paperS]).all_papers = some paperS ∧
      inTopicGroup (groupPapers [csCV, csAI] [paperS, paperS]).by_topic csCV paperS ∧
      inTopicGroup (groupPapers [csCV, csAI] [paperS, paperS]).by_topic csAI paperS := by
  refine ⟨(C3_dedup_and_grouping [csCV, csAI] [paperS, paperS]).1, ?_, ?_, ?_⟩
  · rw [(C3_dedup_and_grouping [csCV, csAI] [paperS, paperS]).2.1 paperS.id]
    decide
  · exact (C3_dedup_and_grouping [csCV, csAI] [paperS, paperS]).2.2 paperS.id paperS
      (by decide) csCV (by decide) (by decide)
  · exact (C3_dedup_and_grouping [csCV, csAI] [paperS, paperS]).2.2 paperS.id paperS
      (by decide) csAI (by decide) (by decide)
